import Mathlib

/-!
Verification of the TekAutomate manual-extraction core.

The definitions below are a shallow embedding of the extraction scripts
`src/scripts/extract_fast.py`, `src/scripts/extract_scpi_from_word_font_aware.py`
and `src/scripts/extract_scpi_from_word_font_aware_MSO.py`.  Strings are
modelled as `List Char`; the Python string primitives used by the scripts
(`strip`, `upper`, `find`, `count`, `in`, slicing, `split`) are embedded as
executable functions.  The master command/group dictionary
(`command_groups_mapping.py`) is an external data file that is not part of the
repository's core, so every definition that consults it is parameterized over
the command list / group map.
-/

namespace TekAutomate

/-- ASCII uppercase, the effect of Python `str.upper()` on the ASCII text the
scripts process. -/
def upChar (c : Char) : Char :=
  if 'a' ≤ c ∧ c ≤ 'z' then Char.ofNat (c.toNat - 32) else c

/-- Python `str.upper()` on a string modelled as a character list. -/
def upStr (s : List Char) : List Char := s.map upChar

/-- Python whitespace (the characters stripped by `str.strip()` and matched
by the regex class `\s` for the ASCII inputs at hand). -/
def pySpace (c : Char) : Bool :=
  c == ' ' || c == '\t' || c == '\n' || c == '\r' || c == '\x0b' || c == '\x0c'

/-- Python `str.strip()`. -/
def pyStrip (s : List Char) : List Char :=
  ((s.dropWhile pySpace).reverse.dropWhile pySpace).reverse

/-- Index of the first occurrence of `pat` in `hay` (Python `str.find`,
`none` standing for Python's `-1`). -/
def findSub (hay pat : List Char) : Option Nat :=
  (List.range (hay.length + 1)).find? (fun i => pat.isPrefixOf (hay.drop i))

/-- Python `str.find(pat, start)`: first occurrence at index `≥ start`. -/
def findSubFrom (hay pat : List Char) (start : Nat) : Option Nat :=
  (findSub (hay.drop start) pat).map (· + start)

/-- Substring test, Python's `pat in hay`. -/
def containsSub (hay pat : List Char) : Bool := (findSub hay pat).isSome

/-- Case-insensitive substring test (`re.search` of a literal pattern with
`re.IGNORECASE`). -/
def containsCI (hay pat : List Char) : Bool := containsSub (upStr hay) (upStr pat)

/-- Fuel-driven worker for `pyCount`. -/
def pyCountFuel : Nat → List Char → List Char → Nat
  | 0, _, _ => 0
  | fuel + 1, hay, pat =>
    match findSub hay pat with
    | none => 0
    | some i => 1 + pyCountFuel fuel (hay.drop (i + pat.length)) pat

/-- Python `str.count(pat)`: number of non-overlapping occurrences, scanning
left to right.  Every caller in the scripts guards with a non-empty `pat`,
for which the fuel `hay.length + 1` is always sufficient. -/
def pyCount (hay pat : List Char) : Nat := pyCountFuel (hay.length + 1) hay pat

/-- First whitespace-delimited token of an already stripped string
(`text.split()[0]`). -/
def firstToken (s : List Char) : List Char :=
  (s.dropWhile pySpace).takeWhile (fun c => !pySpace c)

/-- Worker for `subDigits`; the flag records whether the previous character
was a digit (continuing a run that was already replaced). -/
def subDigitsAux : List Char → Bool → List Char
  | [], _ => []
  | c :: rest, inRun =>
    if c.isDigit then
      if inRun then subDigitsAux rest true
      else '<' :: 'x' :: '>' :: subDigitsAux rest true
    else c :: subDigitsAux rest false

/-- Python `re.sub(r'\d+', '<x>', s)`: every maximal run of decimal digits is
replaced by the three characters `<x>` (with a lowercase `x`). -/
def subDigits (s : List Char) : List Char := subDigitsAux s false

/-- `is_command_in_master_list` from `extract_fast.py` (lines 60–75),
parameterized by the `ALL_COMMANDS` list built from the external mapping
file.  First a direct case-insensitive match, then the "placeholder pattern"
branch that replaces digit runs in the (already uppercased) token by `<x>`
and compares against the uppercased stored command. -/
def is_command_in_master_list (cmds : List String) (text : String) : Option String :=
  if text = "" then none
  else
    let textUpper := pyStrip (upStr text.data)
    match cmds.find? (fun c => upStr c.data == textUpper) with
    | some c => some c
    | none =>
      let patternText := subDigits textUpper
      cmds.find? (fun c => patternText == upStr c.data)

/-- ASCII lowercase, the effect of Python `str.lower()` on the ASCII text the
scripts process. -/
def lowChar (c : Char) : Char :=
  if 'A' ≤ c ∧ c ≤ 'Z' then Char.ofNat (c.toNat + 32) else c

/-- Python `str.lower()`. -/
def lowStr (s : List Char) : List Char := s.map lowChar

/-- Order-preserving de-duplication keeping first occurrences, the effect of
`seen = set(); [x for x in l if not (x in seen or seen.add(x))]`. -/
def pyDedupAux (seen : List String) : List String → List String
  | [] => []
  | x :: xs => if x ∈ seen then pyDedupAux seen xs else x :: pyDedupAux (x :: seen) xs

/-- First-occurrence de-duplication with an empty initial `seen` set. -/
def pyDedup (l : List String) : List String := pyDedupAux [] l

/-- `[f"PRE{i}" for i in range(1, n+1)]`. -/
def famMembers (pre : String) (n : Nat) : List String :=
  (List.range' 1 n).map (fun i => pre ++ toString i)

/-- One iteration of the `expand_wildcards` loop body: the list of strings
the iteration appends to `expanded` for a single option. -/
def expandOne (opt0 : String) : List String :=
  let opt := pyStrip opt0.data
  if opt = [] then []
  else if containsCI opt "CH<x>".data || containsCI opt "CH<n>".data then
    famMembers "CH" 8
  else if containsCI opt "MATH<x>".data || containsCI opt "MATH<n>".data then
    famMembers "MATH" 4
  else if containsCI opt "REF<x>".data || containsCI opt "REF<n>".data then
    famMembers "REF" 4
  else if containsCI opt "BUS<x>".data || containsCI opt "BUS<n>".data
      || containsCI opt "B<x>".data || containsCI opt "B<n>".data then
    let pre := if containsSub opt "B<".data then "B" else "BUS"
    famMembers pre 8
  else if containsCI opt "MEAS<x>".data || containsCI opt "MEAS<n>".data then
    famMembers "MEAS" 8
  else if containsCI opt "SEARCH<x>".data || containsCI opt "SEARCH<n>".data then
    famMembers "SEARCH" 8
  else if containsCI opt "PLOT<x>".data || containsCI opt "PLOT<n>".data then
    famMembers "PLOT" 4
  else if containsCI opt "<NR1>".data || containsCI opt "<NR2>".data
      || containsCI opt "<NR3>".data || containsCI opt "<QString>".data then
    []
  else [String.mk opt]

/-- The raw `expanded` list built by the loop of `expand_wildcards`
(`extract_scpi_from_word_font_aware.py` lines 46–70), before de-duplication.
The family checks are `re.search` of `CH<[xn]>` etc. with `re.IGNORECASE`
(substring tests for both the `<x>` and `<n>` spellings); the `B`/`BUS`
prefix choice tests the case-sensitive substring `B<`. -/
def expandRaw : List String → List String
  | [] => []
  | opt :: rest => expandOne opt ++ expandRaw rest

/-- `expand_wildcards` from `extract_scpi_from_word_font_aware.py`
(lines 46–72): expand each option, then keep first occurrences only and
truncate to 50 entries. -/
def expand_wildcards (optionList : List String) : List String :=
  (pyDedup (expandRaw optionList)).take 50

/-! ### Syntax Splitter (`extract_fast.py` lines 565–617) -/

/-- The pair of strings accumulated by the module-level
`set_syntax` / `query_syntax` loop; `[]` models Python's falsy `""`. -/
structure SplitForms where
  setForm : List Char
  queryForm : List Char
deriving DecidableEq, Repr

/-- Characters matched by the regex class `[A-Za-z:]`. -/
def tokAC (c : Char) : Bool := c.isAlpha || c == ':'

/-- Match of the group `[A-Za-z:]+(?:<x>)?[A-Za-z:]*\?` followed by `\s*$`
against a whole suffix `t`, returning the captured token.  The first
character class is matched greedily; if the optional `<x>` path fails to
reach the final `?`, the engine backtracks to the empty option, where the
second class can consume nothing, so `?` must follow the first run. -/
def tokMatch (t : List Char) : Option (List Char) :=
  let a := t.takeWhile tokAC
  if a = [] then none
  else
    let r1 := t.drop a.length
    let noX : Option (List Char) :=
      match r1 with
      | '?' :: rest => if rest.all pySpace then some (a ++ ['?']) else none
      | _ => none
    if "<x>".data.isPrefixOf r1 then
      let r2 := r1.drop 3
      let b := r2.takeWhile tokAC
      let r3 := r2.drop b.length
      match r3 with
      | '?' :: rest => if rest.all pySpace then some (a ++ "<x>".data ++ b ++ ['?']) else noX
      | _ => noX
    else noX

/-- `re.search(r'\s+([A-Za-z:]+(?:<x>)?[A-Za-z:]*\?)\s*$', s)`: the leftmost
start position of the match together with the captured group.  The `\s+`
must end exactly where the token starts (token characters are never
whitespace), so the leftmost match begins at the first whitespace character
whose run is followed by a valid token and then only whitespace. -/
def queryTailMatch (s : List Char) : Option (Nat × List Char) :=
  (List.range s.length).findSome? (fun i =>
    let t := s.drop i
    let w := t.takeWhile pySpace
    if w = [] then none
    else (tokMatch (t.drop w.length)).map (fun tok => (i, tok)))

/-- The index of the second non-overlapping occurrence of `header` in `s`:
`first_pos = s.find(header); second_pos = s.find(header, first_pos +
len(header))` (lines 581–583). -/
def findSecondOcc (s header : List Char) : Option Nat :=
  match findSub s header with
  | some firstPos => findSubFrom s header (firstPos + header.length)
  | none => none

/-- `if potential and not current: current = potential` — first non-empty
value wins. -/
def updateIfEmpty (old new : List Char) : List Char :=
  if new ≠ [] ∧ old = [] then new else old

/-- The regex phase of the splitter loop body (lines 594–613): try the
end-anchored query pattern and require an argument marker (`{`, `<NR`, or
`<QString`) in the prefix; otherwise the whole line is a query-form
candidate. -/
def splitRegexPhase (s : List Char) (st : SplitForms) : SplitForms :=
  match queryTailMatch s with
  | some (i, tok) =>
    let potentialSet := pyStrip (s.take i)
    let potentialQuery := pyStrip tok
    if potentialSet ≠ [] ∧ (containsSub potentialSet ['\x7b'] ∨ containsSub potentialSet "<NR".data
        ∨ containsSub potentialSet "<QString".data) then
      { setForm := updateIfEmpty st.setForm potentialSet,
        queryForm := updateIfEmpty st.queryForm potentialQuery }
    else { st with queryForm := updateIfEmpty st.queryForm s }
  | none => { st with queryForm := updateIfEmpty st.queryForm s }

/-- One iteration of the `set_syntax`/`query_syntax` loop of
`extract_fast.py` (lines 568–617) over one raw syntax line.  Lines holding
`?` are first tried against the twice-occurring header split, then against
the end-anchored query regex; lines without `?` are set-form candidates.
All assignments are guarded so that an already-resolved form is never
overwritten. -/
def splitStep (header : List Char) (st : SplitForms) (line : String) : SplitForms :=
  let s := pyStrip line.data
  if s = [] then st
  else if s.contains '?' then
    if header ≠ [] ∧ 2 ≤ pyCount s header then
      match findSub s header with
      | some firstPos =>
        match findSubFrom s header (firstPos + header.length) with
        | some secondPos =>
          if 0 < secondPos then
            { setForm := updateIfEmpty st.setForm (pyStrip (s.take secondPos)),
              queryForm := updateIfEmpty st.queryForm (pyStrip (s.drop secondPos)) }
          else splitRegexPhase s st
        | none => splitRegexPhase s st
      | none => splitRegexPhase s st
    else splitRegexPhase s st
  else { st with setForm := updateIfEmpty st.setForm s }

/-- The whole loop: fold `splitStep` over the record's syntax lines,
starting from two unset (empty) forms. -/
def splitSyntaxLines (header : List Char) (lines : List String) : SplitForms :=
  lines.foldl (splitStep header) ⟨[], []⟩

/-! ### Command records and the finalize/merge step (`extract_fast.py` lines 99–192) -/

/-- One split example line, the dicts built in `save_current_section`. -/
structure ExampleEntry where
  scpi : String
  description : String
deriving DecidableEq, Repr

/-- The command dictionary built by `extract_fast.py` (created at lines
253–264).  Optional fields start as Python `None`; `synLines` is the
`"syntax"` list.  An `Option` field holding `some ""` (resp. `some []`) is
distinct from `none` but equally falsy, exactly as in Python. -/
structure Cmd where
  scpi : String
  description : Option String
  conditions : Option String
  group : Option String
  synLines : List String
  relatedCommands : Option (List String)
  arguments : Option String
  examples : Option (List ExampleEntry)
  returns : Option String
  notes : List String
deriving DecidableEq, Repr

/-- Python truthiness of an optional string field. -/
def optStrTruthy : Option String → Bool
  | none => false
  | some s => s ≠ ""

/-- Python truthiness of the optional examples list. -/
def optExTruthy : Option (List ExampleEntry) → Bool
  | none => false
  | some l => l ≠ []

/-- Python truthiness of the optional related-commands list. -/
def optRelTruthy : Option (List String) → Bool
  | none => false
  | some l => l ≠ []

/-- `if not existing.get(key) and current_cmd.get(key): existing[key] =
current_cmd[key]` for a string-valued key. -/
def absorbStr (e c : Option String) : Option String :=
  if !optStrTruthy e && optStrTruthy c then c else e

/-- The same absorption for the `examples` key. -/
def absorbEx (e c : Option (List ExampleEntry)) : Option (List ExampleEntry) :=
  if !optExTruthy e && optExTruthy c then c else e

/-- The duplicate-mnemonic merge of `finalize_command` (`extract_fast.py`
lines 177–188): the existing record absorbs the new record's truthy
description, group, arguments, examples, conditions and returns into its
own falsy fields (in that key order), and the new record's syntax lines not
already present are appended.  No other key is touched: in particular
`relatedCommands` and `notes` always stay those of the existing record. -/
def mergeCmd (existing current : Cmd) : Cmd :=
  let e1 : Cmd :=
    { existing with
      description := absorbStr existing.description current.description,
      group := absorbStr existing.group current.group,
      arguments := absorbStr existing.arguments current.arguments,
      examples := absorbEx existing.examples current.examples,
      conditions := absorbStr existing.conditions current.conditions,
      returns := absorbStr existing.returns current.returns }
  if current.synLines ≠ [] then
    { e1 with synLines :=
        e1.synLines ++ current.synLines.filter (fun s => !e1.synLines.contains s) }
  else e1

/-- The normalization performed by `finalize_command` before the record is
stored (lines 166–174): the group is unconditionally replaced by the master
mapping's value with default `"Miscellaneous"`, and the five listed keys
are reset to `None` when falsy. -/
def finalizeNormalize (groupMap : List (String × String)) (c : Cmd) : Cmd :=
  { c with
    group := some (((groupMap.lookup c.scpi).getD "Miscellaneous")),
    relatedCommands := if optRelTruthy c.relatedCommands then c.relatedCommands else none,
    conditions := if optStrTruthy c.conditions then c.conditions else none,
    returns := if optStrTruthy c.returns then c.returns else none,
    examples := if optExTruthy c.examples then c.examples else none,
    arguments := if optStrTruthy c.arguments then c.arguments else none }

/-- The `GROUP` branch of `save_current_section` (`extract_fast.py` lines
110–115): only the first buffered line is kept; the master mapping's entry,
when truthy, overrides the extracted text (`mapped or first_line`). -/
def save_group_section (groupMap : List (String × String)) (c : Cmd)
    (buffer : List String) : Cmd :=
  let firstLine : String :=
    match buffer with
    | [] => ""
    | b :: _ => String.mk (pyStrip b.data)
  let mapped := groupMap.lookup c.scpi
  { c with group := some (match mapped with
      | some g => if g = "" then firstLine else g
      | none => firstLine) }

/-! ### Block-stream state machine
(`extract_scpi_from_word_font_aware.py`, `extract_commands`, lines 294–354) -/

/-- A document block as the classifier sees it: the paragraph text and the
result of the `is_bold` style predicate (the style attributes themselves
belong to the out-of-scope document loader). -/
structure Block where
  text : String
  bold : Bool
deriving DecidableEq, Repr

/-- The raw per-command dictionary created on header detection (lines
317–321): every section is a list of buffered lines. -/
structure RawCmd where
  header : String
  mappedGroup : String
  description : List String
  group : List String
  synLines : List String
  arguments : List String
  examples : List String
  related : List String
  returns : List String
  conditions : List String
  notes : List String
deriving DecidableEq, Repr

/-- A freshly opened record, all sections empty. -/
def newRawCmd (original grp : String) : RawCmd :=
  ⟨original, grp, [], [], [], [], [], [], [], [], []⟩

/-- `current_cmd[current_section].extend(buffer)`: append the buffered
lines to the named section's list. -/
def extendSection (r : RawCmd) (sectionName : String) (buf : List String) : RawCmd :=
  match sectionName with
  | "description" => { r with description := r.description ++ buf }
  | "group" => { r with group := r.group ++ buf }
  | "syntax" => { r with synLines := r.synLines ++ buf }
  | "arguments" => { r with arguments := r.arguments ++ buf }
  | "examples" => { r with examples := r.examples ++ buf }
  | "related" => { r with related := r.related ++ buf }
  | "returns" => { r with returns := r.returns ++ buf }
  | "conditions" => { r with conditions := r.conditions ++ buf }
  | _ => r

/-- `if buffer: current_cmd[current_section].extend(buffer)`. -/
def flushBuffer (r : RawCmd) (sectionName : String) (buf : List String) : RawCmd :=
  if buf = [] then r else extendSection r sectionName buf

/-- The `SECTION_MAP` dictionary (lines 39–43). -/
def sectionMap (firstWord : String) : Option String :=
  match firstWord with
  | "GROUP" => some "group"
  | "SYNTAX" => some "syntax"
  | "ARGUMENTS" => some "arguments"
  | "EXAMPLES" => some "examples"
  | "RELATED COMMANDS" => some "related"
  | "RELATED" => some "related"
  | "RETURNS" => some "returns"
  | "CONDITIONS" => some "conditions"
  | _ => none

/-- `text.upper().replace('?', '')`, the key looked up in
`MASTER_CMD_MAP`. -/
def normHeaderText (t : List Char) : List Char :=
  (upStr t).filter (fun c => c ≠ '?')

/-- The extraction state: the open record (if any), the current section,
the line buffer, and the records finalized so far, in order. -/
structure EState where
  current : Option RawCmd
  currentSection : String
  buffer : List String
  records : List RawCmd
deriving DecidableEq, Repr

/-- Initial state: no record open, implicit description section. -/
def initEState : EState := ⟨none, "description", [], []⟩

/-- The `HEADER` classification: non-empty stripped text whose normalized
form is a `MASTER_CMD_MAP` key, on a bold paragraph (line 309:
`is_header = norm_text in MASTER_CMD_MAP and is_bold(para)`).  The master
map is passed in as an association list `key ↦ (original, group)`. -/
def isHeaderBlock (master : List (String × String × String)) (b : Block) : Bool :=
  let text := pyStrip b.text.data
  !text.isEmpty && (master.lookup (String.mk (normHeaderText text))).isSome && b.bold

/-- One iteration of the paragraph loop of `extract_commands` (lines
304–348): skip empty blocks; on a header, flush and finalize the open
record and open a fresh one; otherwise, when a record is open, switch
sections on a section keyword (re-buffering any trailing text after the
label), collect note lines, or buffer content.  A block arriving with no
open record is dropped. -/
def extractStep (master : List (String × String × String)) (st : EState) (b : Block) :
    EState :=
  let text := pyStrip b.text.data
  if text = [] then st
  else
    match master.lookup (String.mk (normHeaderText text)), b.bold with
    | some info, true =>
      let records :=
        match st.current with
        | some c => st.records ++ [flushBuffer c st.currentSection st.buffer]
        | none => st.records
      { current := some (newRawCmd info.1 info.2), currentSection := "description",
        buffer := [], records := records }
    | _, _ =>
      match st.current with
      | none => st
      | some c =>
        let tokenRaw := firstToken text
        let fw0 := String.mk ((upStr tokenRaw).filter (fun ch => ch ≠ ':'))
        let firstWord :=
          if "RELATED COMMANDS".data.isPrefixOf (upStr text) then "RELATED COMMANDS" else fw0
        match sectionMap firstWord with
        | some newSection =>
          let c1 := flushBuffer c st.currentSection st.buffer
          let ca0 := pyStrip (text.drop tokenRaw.length)
          let contentAfter := if ca0.head? = some ':' then pyStrip (ca0.drop 1) else ca0
          { current := some c1, currentSection := newSection,
            buffer := if contentAfter ≠ [] then [String.mk contentAfter] else [],
            records := st.records }
        | none =>
          if "NOTE:".data.isPrefixOf (upStr text) || "NOTE ".data.isPrefixOf (upStr text) then
            { st with current := some { c with notes := c.notes ++ [String.mk text] } }
          else
            { st with buffer := st.buffer ++ [String.mk text] }

/-- The end-of-stream flush (lines 350–353): the last open record, if any,
is flushed and appended. -/
def finishExtract (st : EState) : List RawCmd :=
  match st.current with
  | some c => st.records ++ [flushBuffer c st.currentSection st.buffer]
  | none => st.records

/-- `extract_commands`: fold the step over the block stream and flush. -/
def extract_commands (master : List (String × String × String)) (blocks : List Block) :
    List RawCmd :=
  finishExtract (blocks.foldl (extractStep master) initEState)

/-! ### Parameter Inference Engine
(`extract_scpi_from_word_font_aware.py`, `detect_params`, lines 75–237)

The embedded `Param` carries the name, the `type` string and the options
list.  The `required`/`default`/`min`/`max`/`description` metadata of the
source dictionaries is elided: those values never influence which
parameters are emitted (the example-derived `example_default` of lines
80–104 flows only into `default` fields), and no verified property
mentions them. -/

/-- A derived parameter: name, kind string, enumeration options. -/
structure Param where
  name : String
  ptype : String
  options : List String
deriving DecidableEq, Repr

/-- `re.findall(r'([A-Z]+)<([xn])>', header, re.IGNORECASE)`: the
non-overlapping left-to-right matches, each a maximal letter run followed
literally by `<x>`/`<n>` (either case).  Scanning advances one character on
failure and past the `>` on success; shortening the greedy letter run can
never make the following `<` match, so each start position is decided by
its maximal run.  The fuel `s.length` bounds the number of steps, each of
which consumes at least one character. -/
def headerPlaceholdersFuel : Nat → List Char → List (List Char × Char)
  | 0, _ => []
  | _, [] => []
  | fuel + 1, c :: rest =>
    if c.isAlpha then
      match (c :: rest).drop ((c :: rest).takeWhile Char.isAlpha).length with
      | '<' :: p :: '>' :: rest2 =>
        if p = 'x' ∨ p = 'X' ∨ p = 'n' ∨ p = 'N' then
          ((c :: rest).takeWhile Char.isAlpha, p) :: headerPlaceholdersFuel fuel rest2
        else headerPlaceholdersFuel fuel rest
      | _ => headerPlaceholdersFuel fuel rest
    else headerPlaceholdersFuel fuel rest

/-- The placeholder families found in a command header. -/
def headerPlaceholders (s : List Char) : List (List Char × Char) :=
  headerPlaceholdersFuel s.length s

/-- The `prefix_upper` dispatch of Pattern 0 (lines 109–147): the
path-parameter emitted for one recognized placeholder prefix. -/
def headerParamFor (pre : List Char) : Option Param :=
  let pu := String.mk (upStr pre)
  if pu = "POWER" then some ⟨"power", "integer", []⟩
  else if pu = "CH" then some ⟨"channel", "integer", []⟩
  else if pu = "MATH" then some ⟨"math", "integer", []⟩
  else if pu = "REF" then some ⟨"ref", "integer", []⟩
  else if pu = "MEAS" then some ⟨"meas", "integer", []⟩
  else if pu = "SEARCH" then some ⟨"search", "integer", []⟩
  else if pu = "B" ∨ pu = "BUS" then some ⟨"bus", "integer", []⟩
  else if pu = "PLOT" then some ⟨"plot", "integer", []⟩
  else if pu = "HISTOGRAM" then some ⟨"histogram", "integer", []⟩
  else if pu = "CURSOR" then some ⟨"cursor", "integer", []⟩
  else if pu = "CALLOUT" then some ⟨"callout", "integer", []⟩
  else if pu = "MASK" then some ⟨"mask", "integer", []⟩
  else none

/-- The token alternatives of the Pattern 1 regex
`\s+(CH<[xn]>|MATH<[xn]>|REF<[xn]>)\s*$`. -/
def trailingTokens : List String :=
  ["CH<x>", "CH<n>", "MATH<x>", "MATH<n>", "REF<x>", "REF<n>"]

/-- `re.search` of the Pattern 1 regex against one syntax line: after
stripping the trailing whitespace (`\s*$`), one of the tokens must be a
case-insensitive suffix preceded by at least one whitespace character.
Returns `group(1).upper()`. -/
def trailingSourceMatch (syn : List Char) : Option (List Char) :=
  let r := (syn.reverse.dropWhile pySpace).reverse
  trailingTokens.findSome? (fun tk =>
    let tkc := tk.data
    if (upStr tkc).isSuffixOf (upStr r) then
      match (r.take (r.length - tkc.length)).getLast? with
      | some c => if pySpace c then some (upStr (r.drop (r.length - tkc.length))) else none
      | none => none
    else none)

/-- The Pattern 1 loop (lines 154–167): the first syntax entry without a
`?` that ends in a bare indexed token yields one `source` enumeration
parameter, and the loop breaks there. -/
def firstTrailingParam : List String → List Param
  | [] => []
  | syn :: rest =>
    if syn.data.contains '?' then firstTrailingParam rest
    else
      match trailingSourceMatch syn.data with
      | some grp =>
        let expanded := expand_wildcards [String.mk grp]
        if expanded ≠ [] then [⟨"source", "enumeration", expanded⟩] else []
      | none => firstTrailingParam rest

/-- `re.match(r'<NR[123]>|<QString>|<Block>', o, re.IGNORECASE)`:
an anchored prefix test. -/
def phPrefix (o : List Char) : Bool :=
  "<NR1>".data.isPrefixOf (upStr o) || "<NR2>".data.isPrefixOf (upStr o)
    || "<NR3>".data.isPrefixOf (upStr o) || "<QSTRING>".data.isPrefixOf (upStr o)
    || "<BLOCK>".data.isPrefixOf (upStr o)

/-- `re.findall(r'\{([^}]+)\}', s)`: the non-overlapping brace groups with
non-empty contents.  On failure the scan advances one character; on success
it continues after the closing brace.  The fuel `s.length` bounds the
number of steps, each of which consumes at least one character. -/
def braceGroupsFuel : Nat → List Char → List (List Char)
  | 0, _ => []
  | _, [] => []
  | fuel + 1, c :: rest =>
    if c = '\x7b' then
      let content := rest.takeWhile (fun ch => ch ≠ '\x7d')
      match rest.drop content.length with
      | '\x7d' :: rest3 =>
        if content ≠ [] then content :: braceGroupsFuel fuel rest3
        else braceGroupsFuel fuel rest
      | _ => braceGroupsFuel fuel rest
    else braceGroupsFuel fuel rest

/-- The brace-group contents found in a string. -/
def braceGroups (s : List Char) : List (List Char) :=
  braceGroupsFuel s.length s

/-- The Pattern 2 body for one brace group (lines 171–195): skip groups of
placeholders only, expand wildcards among the remaining options, and emit
one enumeration parameter named `state` / `source` / `value`. -/
def braceEnumParam (content : List Char) : Option Param :=
  let rawOptions := ((content.splitOn '|').map pyStrip).filter (fun o => o ≠ [])
  if rawOptions.all phPrefix then none
  else
    let enumOnly := rawOptions.filter (fun o => !phPrefix o)
    let expanded := expand_wildcards (enumOnly.map String.mk)
    if expanded = [] then none
    else
      let pname :=
        if expanded.contains "ON" && expanded.contains "OFF" then "state"
        else if (expanded.take 5).any (fun o => containsSub o.data "CH".data) then "source"
        else "value"
      some ⟨pname, "enumeration", expanded⟩

/-- The names excluded by the `has_enum_arg` recomputation at line 200:
path-parameter names plus `source`. -/
def pathParamNames : List String :=
  ["bus", "power", "channel", "math", "ref", "meas", "search", "plot",
   "cursor", "mask", "histogram", "callout", "source"]

/-- `has_enum_arg = any(p['type'] == 'enumeration' and p['name'] not in
[...] for p in params)` (line 200). -/
def hasEnumArg (params : List Param) : Bool :=
  params.any (fun p => p.ptype = "enumeration" && !pathParamNames.contains p.name)

/-- The numeric/string placeholder step (lines 201–228): fires only when
`has_enum_arg` is false, and emits at most one of integer `value`,
float `value`, string `label`. -/
def numericParams (fullSyntax : List Char) (paramsSoFar : List Param) : List Param :=
  if hasEnumArg paramsSoFar then []
  else if containsCI fullSyntax "<NR1>".data then [⟨"value", "integer", []⟩]
  else if containsCI fullSyntax "<NR2>".data || containsCI fullSyntax "<NR3>".data then
    [⟨"value", "float", []⟩]
  else if containsCI fullSyntax "<QString>".data then [⟨"label", "string", []⟩]
  else []

/-- The arguments-text fallback (lines 229–236): only when no parameter at
all was produced and the arguments text is truthy. -/
def argsFallback (argumentsText : Option String) (paramsSoFar : List Param) : List Param :=
  match argumentsText with
  | none => []
  | some a =>
    if a = "" then []
    else if paramsSoFar ≠ [] then []
    else
      let la := lowStr a.data
      if containsSub la "integer".data then [⟨"value", "integer", []⟩]
      else if containsSub la "float".data || containsSub la "nr2".data
          || containsSub la "nr3".data then [⟨"value", "float", []⟩]
      else if containsSub la "string".data || containsSub la "quoted".data then
        [⟨"label", "string", []⟩]
      else []

/-- `detect_params` (lines 75–237): header path-parameters, the first
trailing bare indexed token, one enumeration parameter per matching brace
group, the gated numeric/string step, and the arguments-text fallback, in
source order.  `full_syntax = " ".join(syntax_list)`. -/
def detect_params (commandHeader : String) (syntaxList : List String)
    (argumentsText : Option String) : List Param :=
  let pHdr := (headerPlaceholders commandHeader.data).filterMap (fun pr => headerParamFor pr.1)
  let pMain :=
    if syntaxList ≠ [] then
      let fullSyntax := (String.intercalate " " syntaxList).data
      let pA := pHdr ++ firstTrailingParam syntaxList
      let pB := pA ++ (braceGroups fullSyntax).filterMap braceEnumParam
      pB ++ numericParams fullSyntax pB
    else pHdr
  pMain ++ argsFallback argumentsText pMain

/-! ### Example Splitter (`extract_fast.py`, `save_current_section`,
lines 128–149)

The embedded regex semantics assume newline-free input, which is what the
pipeline feeds: each example line is a `str.strip()`-ed whitespace-trimmed
paragraph line. -/

/-- Leftmost match of `re.split(r'\s+might\s+return\s+', ..., flags=
re.IGNORECASE)`'s pattern: start index and total match length.  Each `\s+`
is a maximal whitespace run (the following literal begins with a letter,
so backtracking inside a run can never succeed), and the leftmost start is
the first whitespace position opening such a decomposition. -/
def searchMightReturn (s : List Char) : Option (Nat × Nat) :=
  (List.range s.length).findSome? (fun i =>
    let t := s.drop i
    let w1 := t.takeWhile pySpace
    if w1 = [] then none
    else
      let u := t.drop w1.length
      if "MIGHT".data.isPrefixOf (upStr u) then
        let u2 := u.drop 5
        let w2 := u2.takeWhile pySpace
        if w2 = [] then none
        else
          let u3 := u2.drop w2.length
          if "RETURN".data.isPrefixOf (upStr u3) then
            let u4 := u3.drop 6
            let w3 := u4.takeWhile pySpace
            if w3 = [] then none
            else some (i, w1.length + 5 + w2.length + 6 + w3.length)
          else none
      else none)

/-- `re.split(r'\s+might\s+return\s+', line, maxsplit=1, flags=
re.IGNORECASE)`: two parts around the first match, or the whole line. -/
def pySplitMightReturn (s : List Char) : List (List Char) :=
  match searchMightReturn s with
  | some (i, len) => [s.take i, s.drop (i + len)]
  | none => [s]

/-- The verb alternation of the `sets/queries` pattern (line 141). -/
def exampleVerbs : List String := ["sets", "queries", "returns", "indicates", "specifies"]

/-- The verb (its length) matching as a case-insensitive prefix of `u`.
No verb is a prefix of another, so the alternation is unambiguous. -/
def verbAt (u : List Char) : Option Nat :=
  exampleVerbs.findSome? (fun v =>
    if (upStr v.data).isPrefixOf (upStr u) then some v.data.length else none)

/-- `re.match(r'^(.+?)\s+(sets|queries|returns|indicates|specifies)\s+(.+)$',
line, re.IGNORECASE)`: the lazy first group takes the shortest prefix
followed by whitespace, a verb, whitespace and a non-empty remainder; when
everything after the verb is whitespace the engine backtracks the second
`\s+` by one character. -/
def matchSetsQueries (s : List Char) : Option (List Char × List Char × List Char) :=
  (List.range s.length).findSome? (fun k =>
    if k = 0 then none
    else
      let g1 := s.take k
      let t := s.drop k
      let w := t.takeWhile pySpace
      if w = [] then none
      else
        let u := t.drop w.length
        match verbAt u with
        | none => none
        | some vlen =>
          let verb := u.take vlen
          let r := u.drop vlen
          let w2 := r.takeWhile pySpace
          if w2 = [] then none
          else
            let rest := r.drop w2.length
            if rest ≠ [] then some (g1, verb, rest)
            else if 2 ≤ w2.length then some (g1, verb, r.drop (w2.length - 1))
            else none)

/-- Characters of the fallback class `[A-Z0-9:<>?\s\-_]`. -/
def scpiClassChar (c : Char) : Bool :=
  (decide ('A' ≤ c) && decide (c ≤ 'Z')) || c.isDigit || c == ':' || c == '<'
    || c == '>' || c == '?' || pySpace c || c == '-' || c == '_'

/-- `re.match(r'^([A-Z0-9:<>?\s\-_]+?)\s+([a-z].*)$', line)`: the lazy
first group is the shortest class-only prefix followed by whitespace and a
lowercase letter; the second group runs from that letter to the end. -/
def matchUpperFallback (s : List Char) : Option (List Char × List Char) :=
  (List.range s.length).findSome? (fun k =>
    if k = 0 then none
    else
      let g1 := s.take k
      if g1.all scpiClassChar then
        let t := s.drop k
        let w := t.takeWhile pySpace
        if w = [] then none
        else
          let u := t.drop w.length
          match u.head? with
          | some h => if 'a' ≤ h ∧ h ≤ 'z' then some (g1, u) else none
          | none => none
      else none)

/-- The two regex fallbacks of the examples loop (lines 141–149). -/
def setsQueriesPhase (line : List Char) : ExampleEntry :=
  match matchSetsQueries line with
  | some (g1, verb, g3) =>
    ⟨String.mk (pyStrip g1), String.mk verb ++ " " ++ String.mk g3⟩
  | none =>
    match matchUpperFallback line with
    | some (g1, g2) => ⟨String.mk (pyStrip g1), String.mk (pyStrip g2)⟩
    | none => ⟨String.mk line, ""⟩

/-- One (already stripped, non-empty) example line through the examples
branch of `save_current_section` (lines 128–149): the `might return`
pattern is tried first; when it splits, the description is re-prefixed
with `might return`; otherwise the verb-boundary match, then the
uppercase-prefix fallback, then the whole line as snippet. -/
def processExampleLine (line : List Char) : ExampleEntry :=
  if containsSub (lowStr line) "might return".data then
    match pySplitMightReturn line with
    | [a, b] => ⟨String.mk (pyStrip a), "might return " ++ String.mk (pyStrip b)⟩
    | _ => setsQueriesPhase line
  else setsQueriesPhase line

/-! ## Theorems -/

/-- Members produced by `pyDedupAux` avoid the `seen` accumulator and are
pairwise distinct. -/
theorem pyDedupAux_nodup (xs : List String) :
    ∀ seen : List String, (pyDedupAux seen xs).Nodup ∧ ∀ y ∈ pyDedupAux seen xs, y ∉ seen := by
  induction xs with
  | nil => intro seen; simp [pyDedupAux]
  | cons x xs ih =>
    intro seen
    by_cases hx : x ∈ seen
    · simpa [pyDedupAux, hx] using ih seen
    · have h := ih (x :: seen)
      refine ⟨?_, ?_⟩
      · simp only [pyDedupAux, hx, if_neg (by exact hx)]
        refine List.Nodup.cons ?_ h.1
        intro hmem
        exact (h.2 x hmem) (List.mem_cons_self x seen)
      · intro y hy
        simp only [pyDedupAux, if_neg hx, List.mem_cons] at hy
        rcases hy with rfl | hy
        · exact hx
        · intro hseen
          exact (h.2 y hy) (List.mem_cons_of_mem x hseen)

/-- `pyDedup` returns a duplicate-free list. -/
theorem pyDedup_nodup (l : List String) : (pyDedup l).Nodup :=
  (pyDedupAux_nodup l []).1

/-- C10, counterexample.  The claim says the `SEARCH<x>` placeholder is
replaced by the literal members of the SEARCH family, but the `CH<[xn]>`
pattern is found as a substring inside `SEARCH<x>` first, so the expansion
yields the channel family instead: `SEARCH1` is not among the output. -/
theorem expand_wildcards_search_counterexample :
    expand_wildcards ["SEARCH<x>"]
        = ["CH1", "CH2", "CH3", "CH4", "CH5", "CH6", "CH7", "CH8"]
      ∧ "SEARCH1" ∉ expand_wildcards ["SEARCH<x>"] := by
  constructor
  · rfl
  · decide

/-- C10, amended.  `expand_wildcards` always returns a duplicate-free list
of at most 50 entries preserving first occurrences; `CH<x>`, `MATH<x>`,
`REF<x>`, `BUS<x>`/`B<x>`, `MEAS<x>` and `PLOT<x>` (either placeholder
letter, any case) expand to the literal members of their families and the
bare `<NR1>`/`<NR2>`/`<NR3>`/`<QString>` placeholders are removed entirely,
but `SEARCH<x>` expands to the channel family, because the `CH<[xn]>`
substring test fires on it before the `SEARCH<[xn]>` branch is reached. -/
theorem expand_wildcards_spec :
    (∀ l : List String, (expand_wildcards l).Nodup ∧ (expand_wildcards l).length ≤ 50)
      ∧ expand_wildcards ["CH<x>"] = ["CH1", "CH2", "CH3", "CH4", "CH5", "CH6", "CH7", "CH8"]
      ∧ expand_wildcards ["ch<n>"] = ["CH1", "CH2", "CH3", "CH4", "CH5", "CH6", "CH7", "CH8"]
      ∧ expand_wildcards ["MATH<x>"] = ["MATH1", "MATH2", "MATH3", "MATH4"]
      ∧ expand_wildcards ["REF<x>"] = ["REF1", "REF2", "REF3", "REF4"]
      ∧ expand_wildcards ["BUS<x>"] = ["BUS1", "BUS2", "BUS3", "BUS4", "BUS5", "BUS6", "BUS7", "BUS8"]
      ∧ expand_wildcards ["B<x>"] = ["B1", "B2", "B3", "B4", "B5", "B6", "B7", "B8"]
      ∧ expand_wildcards ["MEAS<x>"] = ["MEAS1", "MEAS2", "MEAS3", "MEAS4", "MEAS5", "MEAS6", "MEAS7", "MEAS8"]
      ∧ expand_wildcards ["PLOT<x>"] = ["PLOT1", "PLOT2", "PLOT3", "PLOT4"]
      ∧ expand_wildcards ["SEARCH<x>"] = ["CH1", "CH2", "CH3", "CH4", "CH5", "CH6", "CH7", "CH8"]
      ∧ expand_wildcards ["<NR1>", "<NR2>", "<NR3>", "<QString>"] = []
      ∧ expand_wildcards ["ON", "OFF", "ON"] = ["ON", "OFF"] := by
  refine ⟨fun l => ⟨?_, ?_⟩, ?_, ?_, ?_, ?_, ?_, ?_, ?_, ?_, ?_, ?_, ?_⟩
  · exact (pyDedup_nodup (expandRaw l)).sublist (List.take_sublist 50 _)
  · simp only [expand_wildcards]
    exact List.length_take_le 50 (pyDedup (expandRaw l))
  all_goals rfl

/-- C6, counterexample.  With the index storing only `CH<x>`, the exact
placeholder spelling resolves, but the literal-digit spelling `CH3` and
the `ch<n>` spelling resolve to nothing — so the three tokens of the claim
do not all resolve to the same canonical mnemonic. -/
theorem lookup_normalization_counterexample :
    is_command_in_master_list ["CH<x>"] "CH<x>" = some "CH<x>"
      ∧ is_command_in_master_list ["CH<x>"] "CH3" = none
      ∧ is_command_in_master_list ["CH<x>"] "ch<n>" = none := by
  refine ⟨rfl, rfl, rfl⟩

/-- C6, amended.  Lookup uppercases the token, so any letter-case variant
of the stored placeholder spelling (`CH<x>`, `Ch<X>`, `ch<x>`) resolves to
the canonical `CH<x>`; but the digit-collapse branch substitutes a
lowercase `<x>` into the uppercased token while comparing against the
uppercased stored command (which turns `<x>` into `<X>`), so a
literal-digit spelling such as `CH3` never matches a placeholder command,
and the `<n>` spelling is never collapsed at all, so `ch<n>` fails too. -/
theorem lookup_normalization_spec :
    is_command_in_master_list ["CH<x>"] "CH<x>" = some "CH<x>"
      ∧ is_command_in_master_list ["CH<x>"] "Ch<X>" = some "CH<x>"
      ∧ is_command_in_master_list ["CH<x>"] "ch<x>" = some "CH<x>"
      ∧ is_command_in_master_list ["CH<x>"] "CH3" = none
      ∧ is_command_in_master_list ["CH<x>"] "CH1" = none
      ∧ is_command_in_master_list ["CH<x>"] "ch<n>" = none
      ∧ is_command_in_master_list ["CH3"] "CH3" = some "CH3" := by
  refine ⟨rfl, rfl, rfl, rfl, rfl, rfl, rfl⟩

/-- C9, counterexample.  On the scenario line the example splitter splits
at the verb `might` (the `might return` rule fires first), so the snippet
ends at `FALSE` and the description starts with `might return TRUE`, not
with `indicating` as the claim states. -/
theorem example_split_scenarioE_counterexample :
    processExampleLine
        "SEARCH:SEARCH1:TRIGger:A:LOGIc:WHEn FALSE might return TRUE indicating the search criteria".data
      ≠ ⟨"SEARCH:SEARCH1:TRIGger:A:LOGIc:WHEn FALSE might return TRUE",
         "indicating the search criteria"⟩ := by
  decide

/-- C9, amended.  The splitter cuts the scenario line at `might`: the
snippet is `SEARCH:SEARCH1:TRIGger:A:LOGIc:WHEn FALSE` and the description
is `might return TRUE indicating the search criteria`. -/
theorem example_split_scenarioE :
    processExampleLine
        "SEARCH:SEARCH1:TRIGger:A:LOGIc:WHEn FALSE might return TRUE indicating the search criteria".data
      = ⟨"SEARCH:SEARCH1:TRIGger:A:LOGIc:WHEn FALSE",
         "might return TRUE indicating the search criteria"⟩ := by
  rfl

/-- Every field of the merged record in closed form: the six absorbed
fields, the syntax union, and the untouched `scpi`, `relatedCommands` and
`notes` of the existing record. -/
theorem mergeCmd_eq (e c : Cmd) :
    mergeCmd e c =
      ⟨e.scpi, absorbStr e.description c.description, absorbStr e.conditions c.conditions,
       absorbStr e.group c.group,
       e.synLines ++ c.synLines.filter (fun s => !e.synLines.contains s),
       e.relatedCommands, absorbStr e.arguments c.arguments,
       absorbEx e.examples c.examples, absorbStr e.returns c.returns, e.notes⟩ := by
  by_cases h : c.synLines = [] <;> simp [mergeCmd, h]

/-- A list keeps none of its own elements under the `not contains`
filter. -/
theorem filter_not_contains_self (l : List String) :
    l.filter (fun s => !l.contains s) = [] := by
  rw [List.filter_eq_nil_iff]
  intro a ha
  simp [List.elem_iff.mpr ha, ha]

/-- C2, counterexample.  The merge's field loop covers only description,
group, arguments, examples, conditions and returns: a later record's
related-commands list is discarded even when the earlier record has none,
contradicting the claimed order-preserving union. -/
theorem merge_related_counterexample :
    (mergeCmd
        ⟨"ACQuire:STATE", some "first description", none, some "Acquisition",
         ["A1"], none, none, none, none, []⟩
        ⟨"ACQuire:STATE", none, none, some "Acquisition",
         ["A1", "B2"], some ["*OPC"], none, none, none, []⟩).relatedCommands = none
      ∧ (⟨"ACQuire:STATE", none, none, some "Acquisition",
          ["A1", "B2"], some ["*OPC"], none, none, none, []⟩ : Cmd).relatedCommands
        = some ["*OPC"] := by
  exact ⟨rfl, rfl⟩

/-- C2, amended.  The merge keeps the earlier record and absorbs the later
record's truthy description, group, arguments, examples, conditions and
returns into the earlier record's falsy fields; the syntax list is
extended, order-preservingly, with exactly those entries of the later list
not already present (duplicate-free whenever each record's own list is
duplicate-free); the related-commands list is not unioned — the earlier
record's related list and notes are kept and the later record's are
discarded. -/
theorem merge_semantics (e c e2 c2 : Cmd)
    (he2 : e2.synLines.Nodup) (hc2 : c2.synLines.Nodup) :
    (mergeCmd e c).scpi = e.scpi
      ∧ (mergeCmd e c).description = absorbStr e.description c.description
      ∧ (mergeCmd e c).group = absorbStr e.group c.group
      ∧ (mergeCmd e c).arguments = absorbStr e.arguments c.arguments
      ∧ (mergeCmd e c).examples = absorbEx e.examples c.examples
      ∧ (mergeCmd e c).conditions = absorbStr e.conditions c.conditions
      ∧ (mergeCmd e c).returns = absorbStr e.returns c.returns
      ∧ (mergeCmd e c).synLines
          = e.synLines ++ c.synLines.filter (fun s => !e.synLines.contains s)
      ∧ (mergeCmd e c).relatedCommands = e.relatedCommands
      ∧ (mergeCmd e c).notes = e.notes
      ∧ (mergeCmd e2 c2).synLines.Nodup := by
  rw [mergeCmd_eq, mergeCmd_eq]
  refine ⟨rfl, rfl, rfl, rfl, rfl, rfl, rfl, rfl, rfl, rfl, ?_⟩
  refine he2.append ((hc2.filter _)) ?_
  intro a ha hb
  have hp := List.of_mem_filter hb
  simp only [Bool.not_eq_true'] at hp
  have h2 : a ∉ e2.synLines := by simpa using hp
  exact h2 ha

/-- C2, witness for the amended merge theorem at concrete records. -/
theorem merge_semantics_witness :
    (mergeCmd
        ⟨"CMD", some "d", none, none, ["X"], none, none, none, none, []⟩
        ⟨"CMD", none, none, none, ["X", "Y"], none, none, none, none, []⟩).synLines
      = ["X", "Y"] ∧
    (mergeCmd
        ⟨"CMD", some "d", none, none, ["X"], none, none, none, none, []⟩
        ⟨"CMD", none, none, none, ["X", "Y"], none, none, none, none, []⟩).synLines.Nodup := by
  have h := merge_semantics
    ⟨"CMD", some "d", none, none, ["X"], none, none, none, none, []⟩
    ⟨"CMD", none, none, none, ["X", "Y"], none, none, none, none, []⟩
    ⟨"CMD", some "d", none, none, ["X"], none, none, none, none, []⟩
    ⟨"CMD", none, none, none, ["X", "Y"], none, none, none, none, []⟩
    (by decide) (by decide)
  refine ⟨?_, h.2.2.2.2.2.2.2.2.2.2⟩
  rw [h.2.2.2.2.2.2.2.1]
  decide

/-- C3, counterexample.  When both records carry a truthy description, the
earlier one wins, so merging in the two orders gives different records:
the finalize/merge step is not commutative. -/
theorem merge_not_commutative :
    mergeCmd ⟨"CMD", some "alpha", none, none, [], none, none, none, none, []⟩
        ⟨"CMD", some "beta", none, none, [], none, none, none, none, []⟩
      ≠ mergeCmd ⟨"CMD", some "beta", none, none, [], none, none, none, none, []⟩
        ⟨"CMD", some "alpha", none, none, [], none, none, none, none, []⟩ := by
  decide

/-- Compatibility of two optional string fields: equal, or of different
truthiness (at most one carries a value). -/
def compatOptStr (x y : Option String) : Prop :=
  x = y ∨ optStrTruthy x ≠ optStrTruthy y

/-- Compatibility of the two examples fields. -/
def compatOptEx (x y : Option (List ExampleEntry)) : Prop :=
  x = y ∨ optExTruthy x ≠ optExTruthy y

/-- Field absorption is symmetric on compatible fields. -/
theorem absorbStr_comm {x y : Option String} (h : compatOptStr x y) :
    absorbStr x y = absorbStr y x := by
  rcases h with rfl | h
  · rfl
  · unfold absorbStr
    cases hx : optStrTruthy x <;> cases hy : optStrTruthy y <;> simp_all

/-- Examples absorption is symmetric on compatible fields. -/
theorem absorbEx_comm {x y : Option (List ExampleEntry)} (h : compatOptEx x y) :
    absorbEx x y = absorbEx y x := by
  rcases h with rfl | h
  · rfl
  · unfold absorbEx
    cases hx : optExTruthy x <;> cases hy : optExTruthy y <;> simp_all

/-- The syntax union is symmetric when the two lists are equal or one is
empty. -/
theorem synUnion_comm {l1 l2 : List String}
    (h : l1 = l2 ∨ l1 = [] ∨ l2 = []) :
    l1 ++ l2.filter (fun s => !l1.contains s)
      = l2 ++ l1.filter (fun s => !l2.contains s) := by
  rcases h with rfl | rfl | rfl
  · rw [filter_not_contains_self]
  · simp [List.filter_eq_self]
  · simp [List.filter_eq_self]

/-- C3, amended.  The merge is commutative only for records that agree on
`scpi`, `relatedCommands` and `notes`, whose six absorbed fields are
pairwise equal or of different truthiness, and whose syntax lists are
equal or not both non-empty. -/
theorem merge_commutative_conditional (a b : Cmd)
    (hscpi : a.scpi = b.scpi)
    (hdesc : compatOptStr a.description b.description)
    (hcond : compatOptStr a.conditions b.conditions)
    (hgrp : compatOptStr a.group b.group)
    (harg : compatOptStr a.arguments b.arguments)
    (hex : compatOptEx a.examples b.examples)
    (hret : compatOptStr a.returns b.returns)
    (hrel : a.relatedCommands = b.relatedCommands)
    (hnotes : a.notes = b.notes)
    (hsyn : a.synLines = b.synLines ∨ a.synLines = [] ∨ b.synLines = []) :
    mergeCmd a b = mergeCmd b a := by
  rw [mergeCmd_eq, mergeCmd_eq]
  simp only [Cmd.mk.injEq]
  exact ⟨hscpi, absorbStr_comm hdesc, absorbStr_comm hcond, absorbStr_comm hgrp,
    synUnion_comm hsyn, hrel, absorbStr_comm harg, absorbEx_comm hex,
    absorbStr_comm hret, hnotes⟩

/-- C3, witness: two compatible records (the second carrying only syntax)
merge identically in both orders. -/
theorem merge_commutative_conditional_witness :
    mergeCmd ⟨"CMD", some "d", none, none, [], none, none, none, none, []⟩
        ⟨"CMD", none, none, none, ["CMD <NR1>"], none, none, none, none, []⟩
      = mergeCmd ⟨"CMD", none, none, none, ["CMD <NR1>"], none, none, none, none, []⟩
        ⟨"CMD", some "d", none, none, [], none, none, none, none, []⟩ :=
  merge_commutative_conditional _ _ rfl (Or.inr (by decide)) (Or.inl rfl) (Or.inl rfl)
    (Or.inl rfl) (Or.inl rfl) (Or.inl rfl) rfl rfl (Or.inr (Or.inl rfl))

/-- C4, counterexample.  After the `Group` section saved a document-derived
free-text group for a mnemonic absent from the index, `finalize_command`
unconditionally replaces it with the index mapping's default
`Miscellaneous`: the finalized record does not keep the document-derived
name, and the fallback bucketing happens inside the extractor. -/
theorem group_fallback_counterexample :
    (save_group_section []
        ⟨"FOO:CMD", none, none, none, [], none, none, none, none, []⟩
        ["Custom Group Text"]).group = some "Custom Group Text"
      ∧ (finalizeNormalize []
          (save_group_section []
            ⟨"FOO:CMD", none, none, none, [], none, none, none, none, []⟩
            ["Custom Group Text"])).group = some "Miscellaneous" := by
  exact ⟨rfl, rfl⟩

/-- C4, amended.  The index mapping overrides the body text at the
section-save step (a truthy mapping beats the buffered first line), but the
document-derived text survives only until finalize: there the group is
unconditionally replaced by the index mapping's value with default
`Miscellaneous`, so an unmapped record is bucketed under `Miscellaneous`
by the extractor itself rather than keeping the free-text name. -/
theorem group_resolution (m m2 : List (String × String)) (c c2 : Cmd)
    (buf : List String) (g : String)
    (hm : m.lookup c.scpi = some g) (hg : g ≠ "") :
    (save_group_section m c buf).group = some g
      ∧ (finalizeNormalize m2 c2).group = some ((m2.lookup c2.scpi).getD "Miscellaneous") := by
  constructor
  · simp [save_group_section, hm, hg]
  · simp [finalizeNormalize]

/-- C4, witness for the group-resolution theorem at a concrete mapping. -/
theorem group_resolution_witness :
    (save_group_section [("ACQuire:STATE", "Acquisition")]
        ⟨"ACQuire:STATE", none, none, none, [], none, none, none, none, []⟩
        ["Body Text"]).group = some "Acquisition"
      ∧ (finalizeNormalize []
          ⟨"FOO", none, none, none, [], none, none, none, none, []⟩).group
        = some "Miscellaneous" := by
  have h := group_resolution [("ACQuire:STATE", "Acquisition")] []
    ⟨"ACQuire:STATE", none, none, none, [], none, none, none, none, []⟩
    ⟨"FOO", none, none, none, [], none, none, none, none, []⟩
    ["Body Text"] "Acquisition" (by decide) (by decide)
  exact ⟨h.1, h.2⟩

/-- Number of open records in a state (zero or one by construction). -/
def openCount (st : EState) : Nat :=
  match st.current with
  | some _ => 1
  | none => 0

/-- The end-of-stream flush emits exactly the stored records plus the open
one. -/
theorem finishExtract_length (st : EState) :
    (finishExtract st).length = st.records.length + openCount st := by
  cases h : st.current <;> simp [finishExtract, openCount, h]

/-- One step changes `records + open` by exactly one per header block. -/
theorem extractStep_count (master : List (String × String × String)) (st : EState)
    (b : Block) :
    (extractStep master st b).records.length + openCount (extractStep master st b)
      = st.records.length + openCount st + (if isHeaderBlock master b then 1 else 0) := by
  by_cases htext : pyStrip b.text.data = []
  · have hhead : isHeaderBlock master b = false := by
      simp [isHeaderBlock, htext]
    simp [extractStep, htext, hhead]
  · cases hl : master.lookup (String.mk (normHeaderText (pyStrip b.text.data))) with
    | some info =>
      cases hb : b.bold with
      | true =>
        have hhead : isHeaderBlock master b = true := by
          simp [isHeaderBlock, htext, hl, hb, List.isEmpty_iff]
        cases hc : st.current <;>
          simp [extractStep, htext, hl, hb, hc, hhead, openCount]
      | false =>
        have hhead : isHeaderBlock master b = false := by
          simp [isHeaderBlock, hb]
        cases hc : st.current with
        | none => simp [extractStep, htext, hl, hb, hc, hhead, openCount]
        | some c =>
          simp only [extractStep, htext, hl, hb, hc, hhead, if_neg (by exact htext),
            if_false]
          split <;> [skip; split] <;> simp [openCount, hc]
    | none =>
      have hhead : isHeaderBlock master b = false := by
        simp [isHeaderBlock, hl]
      cases hb : b.bold <;> cases hc : st.current
      all_goals simp only [extractStep, htext, hl, hb, hc, hhead, if_neg (by exact htext),
        if_false, Bool.false_eq_true, reduceIte]
      all_goals (try split) <;> (try split) <;> simp [openCount, hc]

/-- Folding the step adds one finalized-or-open record per header block. -/
theorem extract_loop_count (master : List (String × String × String))
    (blocks : List Block) :
    ∀ st : EState,
      (finishExtract (blocks.foldl (extractStep master) st)).length
        = (finishExtract st).length + (blocks.filter (isHeaderBlock master)).length := by
  induction blocks with
  | nil => intro st; simp
  | cons b bs ih =>
    intro st
    rw [List.foldl_cons, ih (extractStep master st b), finishExtract_length,
      finishExtract_length, extractStep_count]
    by_cases hb : isHeaderBlock master b <;> simp [hb, List.filter_cons]
    all_goals omega

/-- C7.  At most one record is ever open (the state holds an `Option`), and
the number of records finalized by `extract_commands` — one per flush on a
later header plus the end-of-stream flush — equals the number of blocks
classified as headers. -/
theorem header_exclusivity (master : List (String × String × String))
    (blocks blocks2 : List Block) :
    (extract_commands master blocks).length
        = (blocks.filter (isHeaderBlock master)).length
      ∧ openCount (blocks2.foldl (extractStep master) initEState) ≤ 1 := by
  constructor
  · have h := extract_loop_count master blocks initEState
    simpa [extract_commands, finishExtract, initEState] using h
  · cases h : (blocks2.foldl (extractStep master) initEState).current <;>
      simp [openCount, h]

/-- C8.  A block that is not classified as a header, arriving while no
record is open, leaves the extraction state unchanged: nothing is
created, nothing is buffered, and the fold continues on the next block. -/
theorem content_before_header_dropped (master : List (String × String × String))
    (st : EState) (b : Block)
    (hcur : st.current = none) (hhead : isHeaderBlock master b = false) :
    extractStep master st b = st := by
  by_cases htext : pyStrip b.text.data = []
  · simp [extractStep, htext]
  · cases hl : master.lookup (String.mk (normHeaderText (pyStrip b.text.data))) with
    | some info =>
      cases hb : b.bold with
      | true =>
        exfalso
        simp [isHeaderBlock, htext, hl, hb, List.isEmpty_iff] at hhead
      | false =>
        simp [extractStep, htext, hl, hb, hcur]
    | none =>
      cases hb : b.bold <;> simp [extractStep, htext, hl, hb, hcur]

/-- C8, witness: a content block before the first header on a concrete
master map leaves the initial state untouched. -/
theorem content_before_header_dropped_witness :
    extractStep [("ACQUIRE:STATE", "ACQuire:STATE", "Acquisition")] initEState
        ⟨"This is front matter prose.", false⟩
      = initEState :=
  content_before_header_dropped _ initEState _ rfl (by decide)

/-- A value-parameter in the claim's sense: an integer/float/string
parameter named `value` or `label` (header path-parameters carry family
names such as `channel` and never count). -/
def isValueParam (p : Param) : Bool :=
  (p.name == "value" || p.name == "label") && p.ptype != "enumeration"

/-- Outputs of an optional-parameter producer that are never
value-parameters and never enumerations. -/
def paramOutOk (o : Option Param) : Prop :=
  ∀ p, o = some p → isValueParam p = false ∧ (p.ptype == "enumeration") = false

/-- `none` is a harmless output. -/
theorem paramOutOk_none : paramOutOk none := fun _ hp => Option.noConfusion hp

/-- `paramOutOk` distributes over a conditional. -/
theorem paramOutOk_ite {c : Prop} [Decidable c] {a b : Option Param}
    (ha : paramOutOk a) (hb : paramOutOk b) : paramOutOk (if c then a else b) := by
  by_cases h : c
  · rw [if_pos h]; exact ha
  · rw [if_neg h]; exact hb

/-- An integer parameter not named `value`/`label` is a harmless output. -/
theorem paramOutOk_int (nm : String) (h1 : (nm == "value") = false)
    (h2 : (nm == "label") = false) : paramOutOk (some ⟨nm, "integer", []⟩) := by
  intro p hp
  injection hp with h3
  subst h3
  exact ⟨by simp [isValueParam, h1, h2], rfl⟩

/-- Header path-parameters are never value-parameters and never
enumerations. -/
theorem headerParamFor_props (pre : List Char) (p : Param)
    (h : headerParamFor pre = some p) :
    isValueParam p = false ∧ (p.ptype == "enumeration") = false := by
  have hq : paramOutOk (headerParamFor pre) := by
    unfold headerParamFor
    dsimp only
    repeat'
      first
        | exact paramOutOk_none
        | exact paramOutOk_int _ (by decide) (by decide)
        | apply paramOutOk_ite
  exact hq p h

/-- Outputs of an optional-parameter producer that are always
enumerations. -/
def enumOutOk (o : Option Param) : Prop := ∀ p, o = some p → p.ptype = "enumeration"

/-- `none` is trivially an enumeration-only output. -/
theorem enumOutOk_none : enumOutOk none := fun _ hp => Option.noConfusion hp

/-- `enumOutOk` distributes over a conditional. -/
theorem enumOutOk_ite {c : Prop} [Decidable c] {a b : Option Param}
    (ha : enumOutOk a) (hb : enumOutOk b) : enumOutOk (if c then a else b) := by
  by_cases h : c
  · rw [if_pos h]; exact ha
  · rw [if_neg h]; exact hb

/-- A literal enumeration parameter is an enumeration-only output. -/
theorem enumOutOk_some (nm : String) (opts : List String) :
    enumOutOk (some ⟨nm, "enumeration", opts⟩) := by
  intro p hp
  injection hp with h3
  subst h3
  rfl

/-- The brace step emits only enumeration parameters. -/
theorem braceEnumParam_enum (g : List Char) (p : Param)
    (h : braceEnumParam g = some p) : p.ptype = "enumeration" := by
  have hq : enumOutOk (braceEnumParam g) := by
    unfold braceEnumParam
    dsimp only
    repeat'
      first
        | exact enumOutOk_none
        | exact enumOutOk_some _ _
        | apply enumOutOk_ite
  exact hq p h

/-- The trailing-token parameter is always the `source` enumeration. -/
theorem firstTrailingParam_props (sl : List String) (p : Param)
    (h : p ∈ firstTrailingParam sl) : p.name = "source" ∧ p.ptype = "enumeration" := by
  induction sl with
  | nil => simp [firstTrailingParam] at h
  | cons syn rest ih =>
    unfold firstTrailingParam at h
    split at h
    · exact ih h
    · split at h
      · dsimp only at h
        split at h
        · rcases List.mem_singleton.mp h with rfl
          exact ⟨rfl, rfl⟩
        · simp at h
      · exact ih h

/-- Lists of parameters with at most one value-parameter and no
enumerations, closed under the conditionals of the last two steps. -/
def fbOk (l : List Param) : Prop :=
  l.countP isValueParam ≤ 1 ∧ ∀ p ∈ l, (p.ptype == "enumeration") = false

/-- The empty output is fine. -/
theorem fbOk_nil : fbOk [] := ⟨by decide, by simp⟩

/-- A single non-enumeration parameter is fine. -/
theorem fbOk_one (nm ty : String) (hty : (ty == "enumeration") = false) :
    fbOk [⟨nm, ty, []⟩] := by
  constructor
  · exact le_trans (List.countP_le_length _) (by simp)
  · intro p hp
    rcases List.mem_singleton.mp hp with rfl
    exact hty

/-- `fbOk` distributes over a conditional. -/
theorem fbOk_ite {c : Prop} [Decidable c] {a b : List Param}
    (ha : fbOk a) (hb : fbOk b) : fbOk (if c then a else b) := by
  by_cases h : c
  · rw [if_pos h]; exact ha
  · rw [if_neg h]; exact hb

/-- The numeric/string step emits at most one parameter, never an
enumeration, and nothing at all once an enumeration argument exists. -/
theorem numericParams_props (fs : List Char) (ps : List Param) :
    (numericParams fs ps).countP isValueParam ≤ 1
      ∧ (∀ p ∈ numericParams fs ps, (p.ptype == "enumeration") = false)
      ∧ (hasEnumArg ps = true → numericParams fs ps = []) := by
  have hok : fbOk (numericParams fs ps) := by
    unfold numericParams
    repeat'
      first
        | exact fbOk_nil
        | exact fbOk_one _ _ (by decide)
        | apply fbOk_ite
  refine ⟨hok.1, hok.2, ?_⟩
  intro h
  unfold numericParams
  rw [if_pos h]

/-- The arguments-text fallback emits at most one parameter, never an
enumeration, and nothing when parameters already exist. -/
theorem argsFallback_props (a : Option String) (ps : List Param) :
    (argsFallback a ps).countP isValueParam ≤ 1
      ∧ (∀ p ∈ argsFallback a ps, (p.ptype == "enumeration") = false)
      ∧ (ps ≠ [] → argsFallback a ps = []) := by
  have hok : fbOk (argsFallback a ps) := by
    unfold argsFallback
    cases a with
    | none => exact fbOk_nil
    | some s =>
      dsimp only
      repeat'
        first
          | exact fbOk_nil
          | exact fbOk_one _ _ (by decide)
          | apply fbOk_ite
  refine ⟨hok.1, hok.2, ?_⟩
  intro hps
  unfold argsFallback
  cases a with
  | none => rfl
  | some s =>
    dsimp only
    by_cases h0 : s = ""
    · rw [if_pos h0]
    · rw [if_neg h0, if_pos hps]

/-- The header path-parameter list contributes no value-parameter. -/
theorem headerParams_countP (hd : String) :
    ((headerPlaceholders hd.data).filterMap (fun pr => headerParamFor pr.1)).countP
      isValueParam = 0 := by
  rw [List.countP_eq_zero]
  intro p hp
  obtain ⟨pr, _, hsome⟩ := List.mem_filterMap.mp hp
  simp [(headerParamFor_props _ _ hsome).1]

/-- Header path-parameters never satisfy the `has_enum_arg` predicate. -/
theorem headerParams_no_enum (hd : String) :
    hasEnumArg ((headerPlaceholders hd.data).filterMap (fun pr => headerParamFor pr.1))
      = false := by
  rw [hasEnumArg, List.any_eq_false]
  intro p hp
  obtain ⟨pr, _, hsome⟩ := List.mem_filterMap.mp hp
  have hne : p.ptype ≠ "enumeration" := by
    have h2 := (headerParamFor_props _ _ hsome).2
    simpa using h2
  simp [hne]

/-- The trailing-token step contributes no value-parameter. -/
theorem firstTrailingParam_countP (sl : List String) :
    (firstTrailingParam sl).countP isValueParam = 0 := by
  rw [List.countP_eq_zero]
  intro p hp
  simp [isValueParam, (firstTrailingParam_props sl p hp).1]

/-- The brace step contributes no value-parameter. -/
theorem braceParams_countP (fs : List Char) :
    ((braceGroups fs).filterMap braceEnumParam).countP isValueParam = 0 := by
  rw [List.countP_eq_zero]
  intro p hp
  obtain ⟨g, _, hsome⟩ := List.mem_filterMap.mp hp
  simp [isValueParam, braceEnumParam_enum _ _ hsome]

/-- `detect_params` on a non-empty syntax list, written without lets. -/
theorem detect_params_eq_cons (hd : String) (sl : List String) (a : Option String)
    (hsl : sl ≠ []) :
    detect_params hd sl a =
      ((((headerPlaceholders hd.data).filterMap (fun pr => headerParamFor pr.1)
            ++ firstTrailingParam sl)
          ++ (braceGroups (String.intercalate " " sl).data).filterMap braceEnumParam)
        ++ numericParams (String.intercalate " " sl).data
            ((((headerPlaceholders hd.data).filterMap (fun pr => headerParamFor pr.1)
                ++ firstTrailingParam sl)
              ++ (braceGroups (String.intercalate " " sl).data).filterMap braceEnumParam)))
      ++ argsFallback a
          ((((headerPlaceholders hd.data).filterMap (fun pr => headerParamFor pr.1)
                ++ firstTrailingParam sl)
              ++ (braceGroups (String.intercalate " " sl).data).filterMap braceEnumParam)
            ++ numericParams (String.intercalate " " sl).data
                ((((headerPlaceholders hd.data).filterMap (fun pr => headerParamFor pr.1)
                    ++ firstTrailingParam sl)
                  ++ (braceGroups (String.intercalate " " sl).data).filterMap
                      braceEnumParam))) := by
  unfold detect_params
  dsimp only
  rw [if_pos hsl]

/-- `detect_params` on an empty syntax list. -/
theorem detect_params_eq_nil (hd : String) (a : Option String) :
    detect_params hd [] a =
      ((headerPlaceholders hd.data).filterMap (fun pr => headerParamFor pr.1))
        ++ argsFallback a
            ((headerPlaceholders hd.data).filterMap (fun pr => headerParamFor pr.1)) := by
  unfold detect_params
  dsimp only
  rw [if_neg (by simp)]

/-- With no value-parameter among the earlier steps, the gated numeric step
and the fallback contribute at most one between them. -/
theorem pipeline_le_one (pB : List Param) (fs : List Char) (a : Option String)
    (hB : pB.countP isValueParam = 0) :
    ((pB ++ numericParams fs pB)
        ++ argsFallback a (pB ++ numericParams fs pB)).countP isValueParam ≤ 1 := by
  by_cases hn : numericParams fs pB = []
  · have h1 := (argsFallback_props a (pB ++ numericParams fs pB)).1
    rw [List.countP_append, List.countP_append, hB, hn]
    simpa [hn] using h1
  · have hfb : argsFallback a (pB ++ numericParams fs pB) = [] := by
      refine (argsFallback_props a (pB ++ numericParams fs pB)).2.2 ?_
      intro hcontra
      exact hn (List.append_eq_nil.mp hcontra).2
    rw [hfb, List.append_nil, List.countP_append, hB]
    have := (numericParams_props fs pB).1
    omega

/-- Once a qualifying enumeration parameter exists, the numeric step and
the fallback are both silenced, so no value-parameter remains at all. -/
theorem pipeline_gated (pB : List Param) (fs : List Char) (a : Option String)
    (hB : pB.countP isValueParam = 0)
    (henum : hasEnumArg ((pB ++ numericParams fs pB)
        ++ argsFallback a (pB ++ numericParams fs pB)) = true) :
    ((pB ++ numericParams fs pB)
        ++ argsFallback a (pB ++ numericParams fs pB)).countP isValueParam = 0 := by
  have hqB : hasEnumArg pB = true := by
    rw [hasEnumArg, List.any_eq_true]
    rw [hasEnumArg, List.any_eq_true] at henum
    obtain ⟨p, hp, hq⟩ := henum
    simp only [Bool.and_eq_true, decide_eq_true_eq] at hq
    rcases List.mem_append.mp hp with hp' | hfb
    · rcases List.mem_append.mp hp' with hp'' | hnum
      · refine ⟨p, hp'', ?_⟩
        simp only [hq.1, decide_True, Bool.true_and]
        simpa using hq.2
      · exfalso
        have h3 := ((numericParams_props fs pB).2.1 p hnum)
        simp [hq.1] at h3
    · exfalso
      have h3 := ((argsFallback_props a (pB ++ numericParams fs pB)).2.1 p hfb)
      simp [hq.1] at h3
  have hn : numericParams fs pB = [] := (numericParams_props fs pB).2.2 hqB
  have hBne : pB ≠ [] := by
    intro hnil
    rw [hasEnumArg, hnil] at hqB
    simp at hqB
  have hfb : argsFallback a (pB ++ numericParams fs pB) = [] := by
    refine (argsFallback_props a (pB ++ numericParams fs pB)).2.2 ?_
    intro hcontra
    exact hBne (List.append_eq_nil.mp hcontra).1
  rw [hfb, List.append_nil, List.countP_append, hB, hn]
  rfl

/-- C5, counterexample.  A syntax line with two brace groups makes
`detect_params` emit two enumeration parameters — the brace-enumeration
path emits one per matching group, not at most one with the first group
winning. -/
theorem brace_enum_counterexample :
    detect_params "CMD" ["CMD \x7bON|OFF\x7d \x7bRISE|FALL\x7d"] none
        = [⟨"state", "enumeration", ["ON", "OFF"]⟩,
           ⟨"value", "enumeration", ["RISE", "FALL"]⟩]
      ∧ (detect_params "CMD" ["CMD \x7bON|OFF\x7d \x7bRISE|FALL\x7d"] none).countP
          (fun p => p.ptype == "enumeration") = 2 := by
  exact ⟨rfl, rfl⟩

/-- C5, amended.  `detect_params` emits one enumeration parameter per
matching brace group (not at most one); it emits at most one
integer/float/string value-parameter in total, header path-parameters not
counting, and it emits none at all whenever an enumeration parameter named
outside the path-parameter/`source` set was produced (the numeric/string
step and the arguments fallback are both gated on that condition). -/
theorem param_value_limit (h1 : String) (sl1 : List String) (a1 : Option String)
    (h2 : String) (sl2 : List String) (a2 : Option String)
    (henum : hasEnumArg (detect_params h2 sl2 a2) = true) :
    (detect_params h1 sl1 a1).countP isValueParam ≤ 1
      ∧ (detect_params h2 sl2 a2).countP isValueParam = 0 := by
  have hBzero : ∀ (hd : String) (sl : List String),
      (((headerPlaceholders hd.data).filterMap (fun pr => headerParamFor pr.1)
            ++ firstTrailingParam sl)
          ++ (braceGroups (String.intercalate " " sl).data).filterMap
              braceEnumParam).countP isValueParam = 0 := by
    intro hd sl
    rw [List.countP_append, List.countP_append, headerParams_countP,
      firstTrailingParam_countP, braceParams_countP]
  constructor
  · rcases List.eq_nil_or_concat sl1 with rfl | _
    · rw [detect_params_eq_nil]
      rw [List.countP_append, headerParams_countP]
      have := (argsFallback_props a1
        ((headerPlaceholders h1.data).filterMap (fun pr => headerParamFor pr.1))).1
      omega
    · have hsl : sl1 ≠ [] := by
        rintro rfl
        simp at *
      rw [detect_params_eq_cons h1 sl1 a1 hsl]
      exact pipeline_le_one _ _ _ (hBzero h1 sl1)
  · rcases List.eq_nil_or_concat sl2 with rfl | _
    · rw [detect_params_eq_nil] at henum ⊢
      exfalso
      rw [hasEnumArg, List.any_eq_true] at henum
      obtain ⟨p, hp, hq⟩ := henum
      simp only [Bool.and_eq_true, decide_eq_true_eq] at hq
      rcases List.mem_append.mp hp with hp' | hfb
      · have hno := headerParams_no_enum h2
        rw [hasEnumArg, List.any_eq_false] at hno
        have h3 := hno p hp'
        simp only [hq.1, decide_True, Bool.true_and] at h3
        exact h3 hq.2
      · have h3 := ((argsFallback_props a2
          ((headerPlaceholders h2.data).filterMap (fun pr => headerParamFor pr.1))).2.1
            p hfb)
        simp [hq.1] at h3
    · have hsl : sl2 ≠ [] := by
        rintro rfl
        simp at *
      rw [detect_params_eq_cons h2 sl2 a2 hsl] at henum ⊢
      exact pipeline_gated _ _ _ (hBzero h2 sl2) henum

/-- C5, witness for the amended parameter theorem at concrete inputs: a
brace enumeration named `state` gates the numeric step and the general
input stays within one value-parameter. -/
theorem param_value_limit_witness :
    (detect_params "CH<x>:SCAle" ["CH<x>:SCAle <NR3>"] none).countP isValueParam ≤ 1
      ∧ (detect_params "CMD" ["CMD \x7bON|OFF\x7d <NR1>"] none).countP isValueParam = 0 :=
  param_value_limit "CH<x>:SCAle" ["CH<x>:SCAle <NR3>"] none
    "CMD" ["CMD \x7bON|OFF\x7d <NR1>"] none (by decide)

/-- A non-empty pattern never occurs in the empty string. -/
theorem findSub_nil {pat : List Char} (h : pat ≠ []) : findSub [] pat = none := by
  cases pat with
  | nil => exact absurd rfl h
  | cons c cs => rfl

/-- A positive non-overlapping count yields a first occurrence. -/
theorem pyCountFuel_pos {fuel : Nat} {hay pat : List Char}
    (h : 1 ≤ pyCountFuel fuel hay pat) : (findSub hay pat).isSome := by
  cases fuel with
  | zero => simp [pyCountFuel] at h
  | succ f =>
    unfold pyCountFuel at h
    cases hf : findSub hay pat with
    | none => rw [hf] at h; simp at h
    | some i => simp

/-- A count of at least two yields the first occurrence and a strictly
positive second occurrence, exactly as computed by lines 581–583. -/
theorem count_two_second {hay pat : List Char} (hpat : pat ≠ [])
    (h : 2 ≤ pyCount hay pat) :
    ∃ fp j, findSub hay pat = some fp
      ∧ findSubFrom hay pat (fp + pat.length) = some j
      ∧ findSecondOcc hay pat = some j ∧ 0 < j := by
  unfold pyCount at h
  unfold pyCountFuel at h
  cases hf : findSub hay pat with
  | none => rw [hf] at h; simp at h
  | some fp =>
    rw [hf] at h
    simp only [] at h
    have hrec : 1 ≤ pyCountFuel hay.length (hay.drop (fp + pat.length)) pat := by omega
    have hsome := pyCountFuel_pos hrec
    obtain ⟨k, hk⟩ := Option.isSome_iff_exists.mp hsome
    have hfrom : findSubFrom hay pat (fp + pat.length) = some (k + (fp + pat.length)) := by
      unfold findSubFrom
      rw [hk]
      rfl
    refine ⟨fp, k + (fp + pat.length), rfl, hfrom, ?_, ?_⟩
    · unfold findSecondOcc
      rw [hf]
      exact hfrom
    · have hl : 0 < pat.length := List.length_pos.mpr hpat
      omega

/-- An already-resolved form is kept. -/
theorem updateIfEmpty_of_ne {old new : List Char} (h : old ≠ []) :
    updateIfEmpty old new = old := by
  simp only [updateIfEmpty, ite_eq_right_iff, and_imp]
  intro _ h2
  exact absurd h2 h

/-- On a line with `?` where the (non-empty) header occurs at least twice,
one splitter step resolves exactly at the second occurrence. -/
theorem splitStep_double (header : List Char) (st : SplitForms) (line : String)
    (fp j : Nat)
    (hsne : pyStrip line.data ≠ [])
    (hq : (pyStrip line.data).contains '?' = true)
    (hh : header ≠ []) (hc : 2 ≤ pyCount (pyStrip line.data) header)
    (hfp : findSub (pyStrip line.data) header = some fp)
    (hj : findSubFrom (pyStrip line.data) header (fp + header.length) = some j)
    (hjpos : 0 < j) :
    splitStep header st line =
      ⟨updateIfEmpty st.setForm (pyStrip ((pyStrip line.data).take j)),
       updateIfEmpty st.queryForm (pyStrip ((pyStrip line.data).drop j))⟩ := by
  unfold splitStep
  dsimp only
  rw [if_neg hsne, if_pos hq, if_pos (And.intro hh hc), hfp]
  dsimp only
  rw [hj]
  dsimp only
  rw [if_pos hjpos]

/-- One splitter step never overwrites a resolved set form. -/
theorem splitStep_set_mono (header : List Char) (st : SplitForms) (line : String)
    (h : st.setForm ≠ []) : (splitStep header st line).setForm = st.setForm := by
  unfold splitStep splitRegexPhase
  dsimp only
  repeat' split
  all_goals simp [updateIfEmpty_of_ne h]

/-- One splitter step never overwrites a resolved query form. -/
theorem splitStep_query_mono (header : List Char) (st : SplitForms) (line : String)
    (h : st.queryForm ≠ []) : (splitStep header st line).queryForm = st.queryForm := by
  unfold splitStep splitRegexPhase
  dsimp only
  repeat' split
  all_goals simp [updateIfEmpty_of_ne h]

/-- Folding the splitter never overwrites a resolved set form. -/
theorem splitFold_set_mono (header : List Char) (lines : List String) :
    ∀ st : SplitForms, st.setForm ≠ [] →
      (lines.foldl (splitStep header) st).setForm = st.setForm := by
  induction lines with
  | nil => intro st _; rfl
  | cons l ls ih =>
    intro st h
    rw [List.foldl_cons]
    have h2 := splitStep_set_mono header st l h
    rw [ih _ (by rw [h2]; exact h), h2]

/-- Folding the splitter never overwrites a resolved query form. -/
theorem splitFold_query_mono (header : List Char) (lines : List String) :
    ∀ st : SplitForms, st.queryForm ≠ [] →
      (lines.foldl (splitStep header) st).queryForm = st.queryForm := by
  induction lines with
  | nil => intro st _; rfl
  | cons l ls ih =>
    intro st h
    rw [List.foldl_cons]
    have h2 := splitStep_query_mono header st l h
    rw [ih _ (by rw [h2]; exact h), h2]

/-- C1.  For a raw syntax line containing `?` in which the record's
(non-empty) un-suffixed header occurs at least twice, the splitter splits
the stripped line at the second non-overlapping occurrence of the header:
the stripped part before the split point becomes the set-form candidate
and the part from the split point to the end the query-form candidate,
each taken only if that form is still unresolved; and across all lines a
step or a whole fold never overwrites an already-resolved form, so the
first non-empty set and query forms win. -/
theorem syntax_split_second_occurrence (header : List Char) (st st2 : SplitForms)
    (line line2 : String) (lines : List String)
    (hh : header ≠ [])
    (hq : (pyStrip line.data).contains '?' = true)
    (hc : 2 ≤ pyCount (pyStrip line.data) header)
    (hset : st2.setForm ≠ []) (hquery : st2.queryForm ≠ []) :
    (findSecondOcc (pyStrip line.data) header).isSome = true
      ∧ 0 < (findSecondOcc (pyStrip line.data) header).getD 0
      ∧ splitStep header st line =
          ⟨updateIfEmpty st.setForm
              (pyStrip ((pyStrip line.data).take
                ((findSecondOcc (pyStrip line.data) header).getD 0))),
            updateIfEmpty st.queryForm
              (pyStrip ((pyStrip line.data).drop
                ((findSecondOcc (pyStrip line.data) header).getD 0)))⟩
      ∧ (splitStep header st2 line2).setForm = st2.setForm
      ∧ (splitStep header st2 line2).queryForm = st2.queryForm
      ∧ (lines.foldl (splitStep header) st2).setForm = st2.setForm
      ∧ (lines.foldl (splitStep header) st2).queryForm = st2.queryForm := by
  obtain ⟨fp, j, hfp, hj, hsecond, hjpos⟩ := count_two_second hh hc
  have hsne : pyStrip line.data ≠ [] := by
    intro hnil
    rw [hnil] at hq
    simp at hq
  refine ⟨by simp [hsecond], by simp [hsecond, hjpos], ?_, ?_, ?_, ?_, ?_⟩
  · rw [hsecond]
    simpa using splitStep_double header st line fp j hsne hq hh hc hfp hj hjpos
  · exact splitStep_set_mono header st2 line2 hset
  · exact splitStep_query_mono header st2 line2 hquery
  · exact splitFold_set_mono header lines st2 hset
  · exact splitFold_query_mono header lines st2 hquery

/-- C1, witness: on the line `AB:CD {ON|OFF} AB:CD?` with header `AB:CD`
the step splits at the second occurrence, and resolved forms survive a
step and a fold. -/
theorem syntax_split_second_occurrence_witness :
    splitStep "AB:CD".data ⟨[], []⟩ "AB:CD \x7bON|OFF\x7d AB:CD?"
        = ⟨"AB:CD \x7bON|OFF\x7d".data, "AB:CD?".data⟩
      ∧ (splitStep "AB:CD".data ⟨"S".data, "Q".data⟩ "Z?").setForm = "S".data
      ∧ (splitStep "AB:CD".data ⟨"S".data, "Q".data⟩ "Z?").queryForm = "Q".data
      ∧ ((["W"] : List String).foldl (splitStep "AB:CD".data)
          ⟨"S".data, "Q".data⟩).setForm = "S".data
      ∧ ((["W"] : List String).foldl (splitStep "AB:CD".data)
          ⟨"S".data, "Q".data⟩).queryForm = "Q".data := by
  have h := syntax_split_second_occurrence "AB:CD".data ⟨[], []⟩ ⟨"S".data, "Q".data⟩
    "AB:CD \x7bON|OFF\x7d AB:CD?" "Z?" ["W"]
    (by decide) (by decide) (by decide) (by decide) (by decide)
  refine ⟨?_, h.2.2.2.1, h.2.2.2.2.1, h.2.2.2.2.2.1, h.2.2.2.2.2.2⟩
  rw [h.2.2.1]
  decide

end TekAutomate
